import Mathlib

/-!
Shallow embedding of `src/maybe_nan/mod.rs` from the `ndarray-stats` repository.

A one-dimensional `ArrayViewMut1<A>` is modelled as a `List α`; an indexed read
`view[i]` is modelled as `lget` (a `getD` read with the `Inhabited` default; all
reads performed by the algorithm are proved in bounds, see the checked variant
below); `view.swap(i, j)` is modelled as `swapNth`; the slice `view.slice_move
(s![..i])` is modelled as `List.take i`.

The generic free function `remove_nan_mut<A: MaybeNan>` only uses `A::is_nan`,
so it is embedded as a function generic over a predicate `isNan : α → Bool`.

The `MaybeNan` implementations for the two concrete families are embedded
separately: the `Option<T>` family (`impl_maybenan_for_opt_never_nan`) with its
`NotNone<T>` wrapper, and the floating-point family (`impl_maybenan_for_fxx`),
where the payload type `fxx` is abstracted as a type `γ` with a NaN predicate
`p : γ → Bool`, the transparent non-NaN wrapper `Nxx` as the subtype
`{x : γ // p x = false}`, and the canonical `::std::fxx::NAN` constant as a
parameter. References are modelled by the values they point to; "same bit
representation" is modelled as equality of values.
-/

/-- Read `view[i]`: a `getD` read returning `default` out of bounds.  The
algorithm only reads in bounds (proved via the checked variant below). -/
def lget {α : Type} [Inhabited α] (l : List α) (i : Nat) : α :=
  l.getD i default

/-- Model of `view.swap(i, j)`. -/
def swapNth {α : Type} [Inhabited α] (l : List α) (i j : Nat) : List α :=
  (l.set i (lget l j)).set j (lget l i)

/-- First inner loop of `remove_nan_mut`:
`while i <= j && !view[i].is_nan() { i += 1; }`, returning the final `i`. -/
def advanceI {α : Type} [Inhabited α] (isNan : α → Bool) (l : List α) (j : Nat) (i : Nat) : Nat :=
  if i ≤ j ∧ isNan (lget l i) = false then advanceI isNan l j (i + 1) else i
termination_by j + 1 - i
decreasing_by omega

/-- Second inner loop of `remove_nan_mut`:
`while j > i && view[j].is_nan() { j -= 1; }`, returning the final `j`. -/
def retreatJ {α : Type} [Inhabited α] (isNan : α → Bool) (l : List α) (i : Nat) (j : Nat) : Nat :=
  if i < j ∧ isNan (lget l j) = true then retreatJ isNan l i (j - 1) else j
termination_by j
decreasing_by omega

theorem advanceI_ge {α : Type} [Inhabited α] (isNan : α → Bool) (l : List α) (j : Nat) :
    ∀ i, i ≤ advanceI isNan l j i := by
  intro i
  induction i using advanceI.induct isNan l j with
  | case1 i h ih =>
    rw [advanceI, if_pos h]
    omega
  | case2 i h =>
    rw [advanceI, if_neg h]

theorem retreatJ_le {α : Type} [Inhabited α] (isNan : α → Bool) (l : List α) (i : Nat) :
    ∀ j, retreatJ isNan l i j ≤ j := by
  intro j
  induction j using retreatJ.induct isNan l i with
  | case1 j h ih =>
    rw [retreatJ, if_pos h]
    omega
  | case2 j h =>
    rw [retreatJ, if_neg h]

/-- Outer `loop { ... }` of `remove_nan_mut`, carrying the (mutated) view and
the two cursors; returns the final view together with the cut index `i` of
`view.slice_move(s![..i])`. -/
def partitionLoop {α : Type} [Inhabited α] (isNan : α → Bool) (l : List α) (i j : Nat) :
    List α × Nat :=
  if advanceI isNan l j i ≥ retreatJ isNan l (advanceI isNan l j i) j then
    (l, advanceI isNan l j i)
  else
    partitionLoop isNan
      (swapNth l (advanceI isNan l j i) (retreatJ isNan l (advanceI isNan l j i) j))
      (advanceI isNan l j i + 1) (retreatJ isNan l (advanceI isNan l j i) j - 1)
termination_by j + 1 - i
decreasing_by
  have h1 := advanceI_ge isNan l j i
  have h2 := retreatJ_le isNan l (advanceI isNan l j i) j
  omega

/-- The free function `remove_nan_mut`, kept together with its full backing
view: the first component is the whole view after the in-place partition, the
second is the length of the retained non-NaN region. -/
def remove_nan_mut_full {α : Type} [Inhabited α] (isNan : α → Bool) (l : List α) :
    List α × Nat :=
  if l.length = 0 then (l, 0)
  else partitionLoop isNan l 0 (l.length - 1)

/-- The free function `fn remove_nan_mut<A: MaybeNan>(view) -> ArrayViewMut1<A>`:
the retained sub-view (the `s![..i]` slice of the partitioned backing view). -/
def remove_nan_mut {α : Type} [Inhabited α] (isNan : α → Bool) (l : List α) : List α :=
  (remove_nan_mut_full isNan l).1.take (remove_nan_mut_full isNan l).2

/-- Checked variant of the first inner loop: every `view[i]` read is performed
through `l[i]?`, and an out-of-bounds read signals `none` (a Rust panic). -/
def advanceIC {α : Type} (isNan : α → Bool) (l : List α) (j : Nat) (i : Nat) : Option Nat :=
  if i ≤ j then
    match l[i]? with
    | none => none
    | some x => if isNan x = false then advanceIC isNan l j (i + 1) else some i
  else some i
termination_by j + 1 - i
decreasing_by omega

/-- Checked variant of the second inner loop. -/
def retreatJC {α : Type} (isNan : α → Bool) (l : List α) (i : Nat) (j : Nat) : Option Nat :=
  if i < j then
    match l[j]? with
    | none => none
    | some x => if isNan x = true then retreatJC isNan l i (j - 1) else some j
  else some j
termination_by j
decreasing_by omega

/-- Checked variant of `view.swap(i, j)`: `none` models the panic on an
out-of-bounds index. -/
def swapNthChecked {α : Type} (l : List α) (i j : Nat) : Option (List α) :=
  match l[i]?, l[j]? with
  | some a, some b => some ((l.set i b).set j a)
  | _, _ => none

theorem advanceIC_ge {α : Type} (isNan : α → Bool) (l : List α) (j : Nat) :
    ∀ i i2, advanceIC isNan l j i = some i2 → i ≤ i2 := by
  intro i
  induction i using advanceIC.induct isNan l j with
  | case1 i h hx =>
    intro i2 hi2
    rw [advanceIC, if_pos h, hx] at hi2
    exact absurd hi2 (by simp)
  | case2 i h x hx hnan ih =>
    intro i2 hi2
    rw [advanceIC, if_pos h, hx] at hi2
    simp only [if_pos hnan] at hi2
    have := ih i2 hi2
    omega
  | case3 i h x hx hnan =>
    intro i2 hi2
    rw [advanceIC, if_pos h, hx] at hi2
    simp only [if_neg hnan, Option.some.injEq] at hi2
    omega
  | case4 i h =>
    intro i2 hi2
    rw [advanceIC, if_neg h] at hi2
    simp only [Option.some.injEq] at hi2
    omega

theorem retreatJC_le {α : Type} (isNan : α → Bool) (l : List α) (i : Nat) :
    ∀ j j2, retreatJC isNan l i j = some j2 → j2 ≤ j := by
  intro j
  induction j using retreatJC.induct isNan l i with
  | case1 j h hx =>
    intro j2 hj2
    rw [retreatJC, if_pos h, hx] at hj2
    exact absurd hj2 (by simp)
  | case2 j h x hx hnan ih =>
    intro j2 hj2
    rw [retreatJC, if_pos h, hx] at hj2
    simp only [if_pos hnan] at hj2
    have := ih j2 hj2
    omega
  | case3 j h x hx hnan =>
    intro j2 hj2
    rw [retreatJC, if_pos h, hx] at hj2
    simp only [if_neg hnan, Option.some.injEq] at hj2
    omega
  | case4 j h =>
    intro j2 hj2
    rw [retreatJC, if_neg h] at hj2
    simp only [Option.some.injEq] at hj2
    omega

/-- Checked variant of the outer loop: any out-of-bounds element access or swap
yields `none`. -/
def partitionLoopC {α : Type} (isNan : α → Bool) (l : List α) (i j : Nat) :
    Option (List α × Nat) :=
  match h1 : advanceIC isNan l j i with
  | none => none
  | some i2 =>
    match h2 : retreatJC isNan l i2 j with
    | none => none
    | some j2 =>
      if hb : i2 ≥ j2 then some (l, i2)
      else
        match swapNthChecked l i2 j2 with
        | none => none
        | some l2 => partitionLoopC isNan l2 (i2 + 1) (j2 - 1)
termination_by j + 1 - i
decreasing_by
  have ha := advanceIC_ge isNan l j i _ h1
  have hr := retreatJC_le isNan l i2 j _ h2
  omega

/-- Checked variant of the free function `remove_nan_mut`: `none` models any
panic (out-of-bounds indexing, swapping, or slicing). -/
def remove_nan_mut_checked {α : Type} (isNan : α → Bool) (l : List α) :
    Option (List α) :=
  if l.length = 0 then some (l.take 0)
  else
    match partitionLoopC isNan l 0 (l.length - 1) with
    | none => none
    | some (l2, i) => if i ≤ l2.length then some (l2.take i) else none

/-!
The `MaybeNan` implementation for the optional-discrete family
(`impl_maybenan_for_opt_never_nan!`): the maybe-NaN type is `Option T`, the
non-NaN type is the transparent wrapper `NotNone T`.  A Rust reference `&v` is
modelled by the value it points to, so the reference-reinterpreting casts
(`&Option<T> as &NotNone<T>` and back) are modelled as wrapping/unwrapping the
`NotNone` structure around the identical `Option T` value.
-/

/-- The wrapper `pub struct NotNone<T>(Option<T>)`, a thin wrapper around
`Option` whose intended invariant is that the value is never `None`. -/
structure NotNone (T : Type) where
  val : Option T
deriving DecidableEq

/-- `NotNone::into_inner`: returns the underlying option. -/
def NotNone.into_inner {T : Type} (w : NotNone T) : Option T :=
  w.val

/-- `NotNone::unwrap`: moves the value out of the inner option.  The `None`
branch executes `::std::hint::unreachable_unchecked()`; that undefined
behavior is modelled as the `none` result, so `unwrap` is modelled as total
exactly when it returns `some`. -/
def NotNone.unwrap {T : Type} (w : NotNone T) : Option T :=
  match w.val with
  | some inner => some inner
  | none => none

/-- `is_nan` for `Option<T>`: `self.is_none()`. -/
def optIsNan {T : Type} (v : Option T) : Bool :=
  v.isNone

/-- `try_as_not_nan` for `Option<T>`: `None` if absent, otherwise the same
value reinterpreted as `NotNone<T>`. -/
def optTryAsNotNan {T : Type} (v : Option T) : Option (NotNone T) :=
  if v.isNone then none else some ⟨v⟩

/-- `from_not_nan` for `Option<T>`: `value.into_inner()`. -/
def optFromNotNan {T : Type} (w : NotNone T) : Option T :=
  w.into_inner

/-- `from_not_nan_opt` for `Option<T>`: `value.and_then(|v| v.into_inner())`. -/
def optFromNotNanOpt {T : Type} (x : Option (NotNone T)) : Option T :=
  x.bind (fun v => v.into_inner)

/-- `from_not_nan_ref_opt` for `Option<T>`: `None` yields (a reference to) the
canonical absent value `None`; `Some(num)` reinterprets the reference. -/
def optFromNotNanRefOpt {T : Type} (x : Option (NotNone T)) : Option T :=
  match x with
  | none => none
  | some num => num.val

/-- `MaybeNan::remove_nan_mut` for `Option<T>`: runs the generic partition and
reinterprets the returned prefix element-wise from `Option<T>` to `NotNone<T>`. -/
def optRemoveNanMut {T : Type} (l : List (Option T)) : List (NotNone T) :=
  (remove_nan_mut optIsNan l).map (fun v => ⟨v⟩)

/-!
The `MaybeNan` implementation for the floating-point family
(`impl_maybenan_for_fxx!`): the payload type `fxx` is abstracted as a type `γ`
equipped with a NaN predicate `p` (for `f32`/`f64`, `p` is the hardware NaN
test), the ordered wrapper `Nxx` (a transparent `repr(C)` wrapper around `fxx`
that excludes NaN) as the subtype `{x : γ // p x = false}`, and the constant
`::std::fxx::NAN` as a parameter `nan`.  Bit-identical reinterpretation
between `fxx` and `Nxx` is modelled by `Subtype.val` / `Subtype.mk`.
-/

/-- `try_as_not_nan` for `fxx`: `None` on NaN, otherwise the same value
reinterpreted as the non-NaN wrapper. -/
def fxxTryAsNotNan {γ : Type} (p : γ → Bool) (v : γ) : Option {x : γ // p x = false} :=
  if h : p v = true then none else some ⟨v, by simp at h; exact h⟩

/-- `from_not_nan` for `fxx`: `value.raw()`, the wrapped payload. -/
def fxxFromNotNan {γ : Type} {p : γ → Bool} (w : {x : γ // p x = false}) : γ :=
  w.val

/-- `from_not_nan_opt` for `fxx`: `None` maps to `::std::fxx::NAN` (the
parameter `nan`), `Some(num)` to `num.raw()`. -/
def fxxFromNotNanOpt {γ : Type} {p : γ → Bool} (nan : γ)
    (x : Option {x : γ // p x = false}) : γ :=
  match x with
  | none => nan
  | some num => num.val

/-- `from_not_nan_ref_opt` for `fxx`: as `from_not_nan_opt`, at reference
granularity (`None` yields `&::std::fxx::NAN`). -/
def fxxFromNotNanRefOpt {γ : Type} {p : γ → Bool} (nan : γ)
    (x : Option {x : γ // p x = false}) : γ :=
  match x with
  | none => nan
  | some num => num.val

/-- `MaybeNanExt::fold_skipnan`: fold that applies `f` only to the elements
whose not-NaN conversion succeeds, in traversal order, threading the
accumulator through the whole container. -/
def fold_skipnan {α β B : Type} (tryAsNotNan : α → Option β) (l : List α) (init : B)
    (f : B → β → B) : B :=
  l.foldl
    (fun acc elem =>
      match tryAsNotNan elem with
      | some notNan => f acc notNan
      | none => acc)
    init

theorem cons_set_perm {α : Type} [Inhabited α] :
    ∀ (t : List α) (m : Nat) (a : α), m < t.length →
      (t.getD m default :: t.set m a).Perm (a :: t) := by
  intro t
  induction t with
  | nil => intro m a h; simp at h
  | cons b s ih =>
    intro m a h
    cases m with
    | zero =>
      simpa using List.Perm.swap a b s
    | succ k =>
      have hk : k < s.length := by simpa using h
      exact ((List.Perm.swap b (s.getD k default) (s.set k a)).trans
        (List.Perm.cons b (ih k a hk))).trans (List.Perm.swap a b s)

theorem swapNth_perm {α : Type} [Inhabited α] :
    ∀ (l : List α) (i j : Nat), i < j → j < l.length → (swapNth l i j).Perm l := by
  intro l
  induction l with
  | nil => intro i j hij hj; simp at hj
  | cons b s ih =>
    intro i j hij hj
    cases j with
    | zero => omega
    | succ m =>
      have hm : m < s.length := by simpa using hj
      cases i with
      | zero =>
        simpa [swapNth, lget] using cons_set_perm s m b hm
      | succ k =>
        have : swapNth (b :: s) (k + 1) (m + 1) = b :: swapNth s k m := by
          simp [swapNth, lget]
        rw [this]
        exact List.Perm.cons b (ih k m (by omega) hm)

theorem swapNth_length {α : Type} [Inhabited α] (l : List α) (i j : Nat) :
    (swapNth l i j).length = l.length := by
  simp [swapNth]

theorem lget_swapNth_left {α : Type} [Inhabited α] (l : List α) (i j : Nat)
    (hij : i < j) (hj : j < l.length) : lget (swapNth l i j) i = lget l j := by
  unfold swapNth lget
  rw [List.getD_eq_getElem _ _ (by first | omega | (simp only [List.length_set]; omega)),
    List.getElem_set_ne (by omega),
    List.getElem_set_self (by first | omega | (simp only [List.length_set]; omega)),
    List.getD_eq_getElem _ _ hj]

theorem lget_swapNth_right {α : Type} [Inhabited α] (l : List α) (i j : Nat)
    (hj : j < l.length) : lget (swapNth l i j) j = lget l i := by
  unfold swapNth lget
  rw [List.getD_eq_getElem _ _ (by simp [hj]), List.getElem_set_self (by simp [hj])]

theorem lget_swapNth_other {α : Type} [Inhabited α] (l : List α) (i j k : Nat)
    (hki : k ≠ i) (hkj : k ≠ j) (hk : k < l.length) :
    lget (swapNth l i j) k = lget l k := by
  unfold swapNth lget
  rw [List.getD_eq_getElem _ _ (by simpa), List.getElem_set_ne (by omega),
    List.getElem_set_ne (by omega), List.getD_eq_getElem _ _ hk]

theorem advanceI_le_max {α : Type} [Inhabited α] (isNan : α → Bool) (l : List α) (j : Nat) :
    ∀ i, advanceI isNan l j i ≤ max i (j + 1) := by
  intro i
  induction i using advanceI.induct isNan l j with
  | case1 i h ih =>
    rw [advanceI, if_pos h]
    omega
  | case2 i h =>
    rw [advanceI, if_neg h]
    omega

theorem advanceI_nonNan {α : Type} [Inhabited α] (isNan : α → Bool) (l : List α) (j : Nat) :
    ∀ i, ∀ k, i ≤ k → k < advanceI isNan l j i → isNan (lget l k) = false := by
  intro i
  induction i using advanceI.induct isNan l j with
  | case1 i h ih =>
    intro k hik hk
    rcases Nat.eq_or_lt_of_le hik with rfl | hlt
    · exact h.2
    · rw [advanceI, if_pos h] at hk
      exact ih k hlt hk
  | case2 i h =>
    intro k hik hk
    rw [advanceI, if_neg h] at hk
    omega

theorem advanceI_stop {α : Type} [Inhabited α] (isNan : α → Bool) (l : List α) (j : Nat) :
    ∀ i, advanceI isNan l j i ≤ j → isNan (lget l (advanceI isNan l j i)) = true := by
  intro i
  induction i using advanceI.induct isNan l j with
  | case1 i h ih =>
    rw [advanceI, if_pos h]
    exact ih
  | case2 i h =>
    rw [advanceI, if_neg h]
    intro hij
    cases hb : isNan (lget l i) with
    | false => exact absurd ⟨hij, hb⟩ h
    | true => rfl

theorem retreatJ_ge {α : Type} [Inhabited α] (isNan : α → Bool) (l : List α) (i : Nat) :
    ∀ j, i ≤ j → i ≤ retreatJ isNan l i j := by
  intro j
  induction j using retreatJ.induct isNan l i with
  | case1 j h ih =>
    intro _
    rw [retreatJ, if_pos h]
    exact ih (by omega)
  | case2 j h =>
    intro hij
    rw [retreatJ, if_neg h]
    exact hij

theorem retreatJ_nan {α : Type} [Inhabited α] (isNan : α → Bool) (l : List α) (i : Nat) :
    ∀ j, ∀ k, retreatJ isNan l i j < k → k ≤ j → isNan (lget l k) = true := by
  intro j
  induction j using retreatJ.induct isNan l i with
  | case1 j h ih =>
    intro k hk hkj
    rcases Nat.eq_or_lt_of_le hkj with rfl | hlt
    · exact h.2
    · rw [retreatJ, if_pos h] at hk
      exact ih k hk (by omega)
  | case2 j h =>
    intro k hk hkj
    rw [retreatJ, if_neg h] at hk
    omega

theorem retreatJ_stop {α : Type} [Inhabited α] (isNan : α → Bool) (l : List α) (i : Nat) :
    ∀ j, i < retreatJ isNan l i j → isNan (lget l (retreatJ isNan l i j)) = false := by
  intro j
  induction j using retreatJ.induct isNan l i with
  | case1 j h ih =>
    rw [retreatJ, if_pos h]
    exact ih
  | case2 j h =>
    rw [retreatJ, if_neg h]
    intro hij
    cases hb : isNan (lget l j) with
    | false => rfl
    | true => exact absurd ⟨hij, hb⟩ h

theorem partitionLoop_spec {α : Type} [Inhabited α] (isNan : α → Bool) :
    ∀ (l : List α) (i j : Nat),
      j < l.length → i ≤ j + 1 →
      (∀ k, k < i → isNan (lget l k) = false) →
      (∀ k, j < k → k < l.length → isNan (lget l k) = true) →
      (partitionLoop isNan l i j).1.Perm l ∧
      (partitionLoop isNan l i j).1.length = l.length ∧
      i ≤ (partitionLoop isNan l i j).2 ∧
      (partitionLoop isNan l i j).2 ≤ j + 1 ∧
      (∀ k, k < (partitionLoop isNan l i j).2 →
        isNan (lget (partitionLoop isNan l i j).1 k) = false) ∧
      (∀ k, (partitionLoop isNan l i j).2 ≤ k → k < l.length →
        isNan (lget (partitionLoop isNan l i j).1 k) = true) := by
  intro l i j
  induction l, i, j using partitionLoop.induct isNan with
  | case1 l i j hbranch =>
    intro hj hi hpre hsuf
    have hge := advanceI_ge isNan l j i
    have hmax := advanceI_le_max isNan l j i
    have hjle := retreatJ_le isNan l (advanceI isNan l j i) j
    rw [partitionLoop, if_pos hbranch]
    refine ⟨List.Perm.refl l, rfl, hge, by omega, ?_, ?_⟩
    · intro k hk
      rcases Nat.lt_or_ge k i with hki | hki
      · exact hpre k hki
      · exact advanceI_nonNan isNan l j i k hki hk
    · intro k hk hkn
      rcases Nat.lt_or_ge j k with hkj | hkj
      · exact hsuf k hkj hkn
      · rcases Nat.lt_or_ge (retreatJ isNan l (advanceI isNan l j i) j) k with hkr | hkr
        · exact retreatJ_nan isNan l (advanceI isNan l j i) j k hkr hkj
        · have hk1 : k = advanceI isNan l j i := by omega
          subst hk1
          exact advanceI_stop isNan l j i (by omega)
  | case2 l i j hbranch ih =>
    intro hj hi hpre hsuf
    have hge := advanceI_ge isNan l j i
    have hjle := retreatJ_le isNan l (advanceI isNan l j i) j
    have hlt : advanceI isNan l j i < retreatJ isNan l (advanceI isNan l j i) j := by omega
    have hjn : retreatJ isNan l (advanceI isNan l j i) j < l.length := by omega
    have hswlen := swapNth_length l (advanceI isNan l j i)
      (retreatJ isNan l (advanceI isNan l j i) j)
    rw [partitionLoop, if_neg hbranch]
    have hstop := advanceI_stop isNan l j i (by omega)
    have hrstop := retreatJ_stop isNan l (advanceI isNan l j i) j hlt
    have ihc := ih (by omega) (by omega) ?_ ?_
    case refine_1 =>
      intro k hk
      rcases Nat.lt_or_ge k (advanceI isNan l j i) with hki | hki
      · rw [lget_swapNth_other l _ _ k (by omega) (by omega) (by omega)]
        rcases Nat.lt_or_ge k i with hki2 | hki2
        · exact hpre k hki2
        · exact advanceI_nonNan isNan l j i k hki2 hki
      · have hk1 : k = advanceI isNan l j i := by omega
        subst hk1
        rw [lget_swapNth_left l _ _ hlt hjn]
        exact hrstop
    case refine_2 =>
      intro k hk hkn
      rcases Nat.lt_or_ge (retreatJ isNan l (advanceI isNan l j i) j) k with hkr | hkr
      · rcases Nat.lt_or_ge j k with hkj | hkj
        · rw [lget_swapNth_other l _ _ k (by omega) (by omega) (by omega)]
          exact hsuf k hkj (by omega)
        · rw [lget_swapNth_other l _ _ k (by omega) (by omega) (by omega)]
          exact retreatJ_nan isNan l (advanceI isNan l j i) j k hkr hkj
      · have hk1 : k = retreatJ isNan l (advanceI isNan l j i) j := by omega
        subst hk1
        rw [lget_swapNth_right l _ _ hjn]
        exact hstop
    obtain ⟨ih1, ih2, ih3, ih4, ih5, ih6⟩ := ihc
    refine ⟨ih1.trans (swapNth_perm l _ _ hlt hjn), by omega, by omega, by omega, ih5, ?_⟩
    intro k hk hkn
    exact ih6 k hk (by omega)

theorem remove_nan_mut_full_spec {α : Type} [Inhabited α] (isNan : α → Bool) (l : List α) :
    (remove_nan_mut_full isNan l).1.Perm l ∧
    (remove_nan_mut_full isNan l).1.length = l.length ∧
    (remove_nan_mut_full isNan l).2 ≤ l.length ∧
    (∀ k, k < (remove_nan_mut_full isNan l).2 →
      isNan (lget (remove_nan_mut_full isNan l).1 k) = false) ∧
    (∀ k, (remove_nan_mut_full isNan l).2 ≤ k → k < l.length →
      isNan (lget (remove_nan_mut_full isNan l).1 k) = true) := by
  unfold remove_nan_mut_full
  by_cases h0 : l.length = 0
  · rw [if_pos h0]
    exact ⟨List.Perm.refl l, rfl, by omega, by omega, by omega⟩
  · rw [if_neg h0]
    have := partitionLoop_spec isNan l 0 (l.length - 1) (by omega) (by omega)
      (by omega) (by intro k hk hkn; omega)
    exact ⟨this.1, this.2.1, by omega, this.2.2.2.2.1, by
      intro k hk hkn
      exact this.2.2.2.2.2 k (by omega) hkn⟩

theorem mem_take_lget {α : Type} [Inhabited α] (l : List α) (m : Nat) (x : α)
    (hx : x ∈ l.take m) : ∃ k, k < m ∧ k < l.length ∧ lget l k = x := by
  obtain ⟨i, hi, hix⟩ := List.mem_iff_getElem.mp hx
  have hlen : i < m ∧ i < l.length := by
    have := hi
    simp only [List.length_take] at this
    omega
  refine ⟨i, hlen.1, hlen.2, ?_⟩
  rw [lget, List.getD_eq_getElem _ _ hlen.2]
  exact (List.getElem_take l).symm.trans hix

theorem mem_drop_lget {α : Type} [Inhabited α] (l : List α) (m : Nat) (x : α)
    (hx : x ∈ l.drop m) : ∃ k, m ≤ k ∧ k < l.length ∧ lget l k = x := by
  obtain ⟨i, hi, hix⟩ := List.mem_iff_getElem.mp hx
  have hlen : m + i < l.length := by
    have := hi
    simp only [List.length_drop] at this
    omega
  refine ⟨m + i, by omega, hlen, ?_⟩
  rw [lget, List.getD_eq_getElem _ _ hlen]
  rw [List.getElem_drop] at hix
  exact hix

theorem remove_nan_mut_all_nonNan {α : Type} [Inhabited α] (isNan : α → Bool) (l : List α) :
    ∀ x ∈ remove_nan_mut isNan l, isNan x = false := by
  intro x hx
  obtain ⟨k, hk, hkn, hkx⟩ := mem_take_lget _ _ _ hx
  have := (remove_nan_mut_full_spec isNan l).2.2.2.1 k hk
  rw [hkx] at this
  exact this

theorem remove_nan_mut_drop_all_nan {α : Type} [Inhabited α] (isNan : α → Bool) (l : List α) :
    ∀ x ∈ (remove_nan_mut_full isNan l).1.drop (remove_nan_mut_full isNan l).2,
      isNan x = true := by
  intro x hx
  obtain ⟨k, hk, hkn, hkx⟩ := mem_drop_lget _ _ _ hx
  have hlen := (remove_nan_mut_full_spec isNan l).2.1
  have := (remove_nan_mut_full_spec isNan l).2.2.2.2 k hk (by omega)
  rw [hkx] at this
  exact this

theorem remove_nan_mut_perm_filter {α : Type} [Inhabited α] (isNan : α → Bool) (l : List α) :
    (remove_nan_mut isNan l).Perm (l.filter (fun x => !isNan x)) := by
  have hperm := (remove_nan_mut_full_spec isNan l).1
  have htake : ((remove_nan_mut_full isNan l).1.take
      (remove_nan_mut_full isNan l).2).filter (fun x => !isNan x) =
      (remove_nan_mut_full isNan l).1.take (remove_nan_mut_full isNan l).2 := by
    apply List.filter_eq_self.mpr
    intro a ha
    simpa using remove_nan_mut_all_nonNan isNan l a ha
  have hdrop : ((remove_nan_mut_full isNan l).1.drop
      (remove_nan_mut_full isNan l).2).filter (fun x => !isNan x) = [] := by
    apply List.filter_eq_nil_iff.mpr
    intro a ha
    simpa using remove_nan_mut_drop_all_nan isNan l a ha
  have hsplit : (remove_nan_mut_full isNan l).1.filter (fun x => !isNan x) =
      remove_nan_mut isNan l := by
    conv_lhs => rw [← List.take_append_drop (remove_nan_mut_full isNan l).2
      (remove_nan_mut_full isNan l).1]
    rw [List.filter_append, htake, hdrop, List.append_nil]
    rfl
  have := hperm.filter (fun x => !isNan x)
  rw [hsplit] at this
  exact this

theorem remove_nan_mut_suffix_perm_filter {α : Type} [Inhabited α] (isNan : α → Bool)
    (l : List α) :
    ((remove_nan_mut_full isNan l).1.drop (remove_nan_mut_full isNan l).2).Perm
      (l.filter (fun x => isNan x)) := by
  have hperm := (remove_nan_mut_full_spec isNan l).1
  have htake : ((remove_nan_mut_full isNan l).1.take
      (remove_nan_mut_full isNan l).2).filter (fun x => isNan x) = [] := by
    apply List.filter_eq_nil_iff.mpr
    intro a ha
    simpa using remove_nan_mut_all_nonNan isNan l a ha
  have hdrop : ((remove_nan_mut_full isNan l).1.drop
      (remove_nan_mut_full isNan l).2).filter (fun x => isNan x) =
      (remove_nan_mut_full isNan l).1.drop (remove_nan_mut_full isNan l).2 := by
    apply List.filter_eq_self.mpr
    intro a ha
    simpa using remove_nan_mut_drop_all_nan isNan l a ha
  have hsplit : (remove_nan_mut_full isNan l).1.filter (fun x => isNan x) =
      (remove_nan_mut_full isNan l).1.drop (remove_nan_mut_full isNan l).2 := by
    conv_lhs => rw [← List.take_append_drop (remove_nan_mut_full isNan l).2
      (remove_nan_mut_full isNan l).1]
    rw [List.filter_append, htake, hdrop, List.nil_append]
  have := hperm.filter (fun x => isNan x)
  rw [hsplit] at this
  exact this

theorem remove_nan_mut_length {α : Type} [Inhabited α] (isNan : α → Bool) (l : List α) :
    (remove_nan_mut isNan l).length = l.countP (fun x => !isNan x) := by
  rw [(remove_nan_mut_perm_filter isNan l).length_eq, List.countP_eq_length_filter]

theorem advanceI_all {α : Type} [Inhabited α] (isNan : α → Bool) (l : List α) (j : Nat)
    (hall : ∀ k, k < l.length → isNan (lget l k) = false) (hjn : j + 1 ≤ l.length) :
    ∀ i, i ≤ j + 1 → advanceI isNan l j i = j + 1 := by
  intro i
  induction i using advanceI.induct isNan l j with
  | case1 i h ih =>
    intro _
    rw [advanceI, if_pos h]
    exact ih (by omega)
  | case2 i h =>
    intro hi
    rw [advanceI, if_neg h]
    rcases Nat.lt_or_ge j i with hij | hij
    · omega
    · exact absurd ⟨hij, hall i (by omega)⟩ h

theorem retreatJ_of_ge {α : Type} [Inhabited α] (isNan : α → Bool) (l : List α) (i j : Nat)
    (h : j ≤ i) : retreatJ isNan l i j = j := by
  rw [retreatJ, if_neg (by omega)]

theorem remove_nan_mut_nonNan_id {α : Type} [Inhabited α] (isNan : α → Bool) (l : List α)
    (hall : ∀ x ∈ l, isNan x = false) :
    remove_nan_mut_full isNan l = (l, l.length) ∧ remove_nan_mut isNan l = l := by
  have hall' : ∀ k, k < l.length → isNan (lget l k) = false := by
    intro k hk
    apply hall
    rw [lget, List.getD_eq_getElem _ _ hk]
    exact List.getElem_mem hk
  have hfull : remove_nan_mut_full isNan l = (l, l.length) := by
    unfold remove_nan_mut_full
    by_cases h0 : l.length = 0
    · rw [if_pos h0]
      have : l = [] := List.length_eq_zero.mp h0
      simp [this]
    · rw [if_neg h0]
      have hadv : advanceI isNan l (l.length - 1) 0 = l.length := by
        have := advanceI_all isNan l (l.length - 1) hall' (by omega) 0 (by omega)
        omega
      rw [partitionLoop, hadv, retreatJ_of_ge isNan l l.length (l.length - 1) (by omega),
        if_pos (by omega)]
  refine ⟨hfull, ?_⟩
  rw [remove_nan_mut, hfull]
  exact List.take_length l

theorem remove_nan_mut_idem {α : Type} [Inhabited α] (isNan : α → Bool) (l : List α) :
    remove_nan_mut isNan (remove_nan_mut isNan l) = remove_nan_mut isNan l :=
  (remove_nan_mut_nonNan_id isNan (remove_nan_mut isNan l)
    (remove_nan_mut_all_nonNan isNan l)).2

theorem advanceIC_eq {α : Type} [Inhabited α] (isNan : α → Bool) (l : List α) (j : Nat)
    (hj : j < l.length) :
    ∀ i, advanceIC isNan l j i = some (advanceI isNan l j i) := by
  intro i
  induction i using advanceI.induct isNan l j with
  | case1 i h ih =>
    have hi : i < l.length := by omega
    have hget : l[i]? = some l[i] := List.getElem?_eq_getElem hi
    have hlget : lget l i = l[i] := List.getD_eq_getElem l default hi
    rw [advanceIC, if_pos h.1, hget]
    have hnan : isNan l[i] = false := by rw [← hlget]; exact h.2
    simp only [if_pos hnan]
    have hstep : advanceI isNan l j i = advanceI isNan l j (i + 1) := by
      rw [advanceI, if_pos h]
    rw [ih, hstep]
  | case2 i h =>
    rw [advanceI, if_neg h]
    by_cases hij : i ≤ j
    · have hi : i < l.length := by omega
      have hget : l[i]? = some l[i] := List.getElem?_eq_getElem hi
      have hlget : lget l i = l[i] := List.getD_eq_getElem l default hi
      have hnan : isNan l[i] = true := by
        rw [← hlget]
        cases hb : isNan (lget l i) with
        | false => exact absurd ⟨hij, hb⟩ h
        | true => rfl
      rw [advanceIC, if_pos hij, hget]
      simp [hnan]
    · rw [advanceIC, if_neg hij]

theorem retreatJC_eq {α : Type} [Inhabited α] (isNan : α → Bool) (l : List α) (i : Nat) :
    ∀ j, j < l.length → retreatJC isNan l i j = some (retreatJ isNan l i j) := by
  intro j
  induction j using retreatJ.induct isNan l i with
  | case1 j h ih =>
    intro hj
    have hget : l[j]? = some l[j] := List.getElem?_eq_getElem hj
    have hlget : lget l j = l[j] := List.getD_eq_getElem l default hj
    rw [retreatJC, if_pos h.1, hget]
    have hnan : isNan l[j] = true := by rw [← hlget]; exact h.2
    simp only [if_pos hnan]
    have hstep : retreatJ isNan l i j = retreatJ isNan l i (j - 1) := by
      rw [retreatJ, if_pos h]
    rw [ih (by omega), hstep]
  | case2 j h =>
    intro hj
    rw [retreatJ, if_neg h]
    by_cases hij : i < j
    · have hget : l[j]? = some l[j] := List.getElem?_eq_getElem hj
      have hlget : lget l j = l[j] := List.getD_eq_getElem l default hj
      have hnan : isNan l[j] = false := by
        rw [← hlget]
        cases hb : isNan (lget l j) with
        | false => rfl
        | true => exact absurd ⟨hij, hb⟩ h
      rw [retreatJC, if_pos hij, hget]
      simp [hnan]
    · rw [retreatJC, if_neg hij]

theorem swapNthChecked_eq {α : Type} [Inhabited α] (l : List α) (i j : Nat)
    (hi : i < l.length) (hj : j < l.length) :
    swapNthChecked l i j = some (swapNth l i j) := by
  rw [swapNthChecked, List.getElem?_eq_getElem hi, List.getElem?_eq_getElem hj]
  simp only [swapNth, lget, List.getD_eq_getElem l default hi,
    List.getD_eq_getElem l default hj]

theorem partitionLoopC_eq {α : Type} [Inhabited α] (isNan : α → Bool) :
    ∀ (l : List α) (i j : Nat), j < l.length →
      partitionLoopC isNan l i j = some (partitionLoop isNan l i j) := by
  intro l i j
  induction l, i, j using partitionLoop.induct isNan with
  | case1 l i j hbranch =>
    intro hj
    rw [partitionLoopC.eq_def, advanceIC_eq isNan l j hj]
    simp only []
    rw [retreatJC_eq isNan l _ j hj]
    simp only [dif_pos hbranch]
    rw [partitionLoop, if_pos hbranch]
  | case2 l i j hbranch ih =>
    intro hj
    have hge := advanceI_ge isNan l j i
    have hjle := retreatJ_le isNan l (advanceI isNan l j i) j
    have hlt : advanceI isNan l j i < retreatJ isNan l (advanceI isNan l j i) j := by omega
    rw [partitionLoopC.eq_def, advanceIC_eq isNan l j hj]
    simp only []
    rw [retreatJC_eq isNan l _ j hj]
    simp only [dif_neg hbranch]
    rw [swapNthChecked_eq l _ _ (by omega) (by omega)]
    rw [partitionLoop, if_neg hbranch]
    exact ih (by rw [swapNth_length]; omega)

theorem remove_nan_mut_checked_eq {α : Type} [Inhabited α] (isNan : α → Bool) (l : List α) :
    remove_nan_mut_checked isNan l = some (remove_nan_mut isNan l) := by
  have hs := remove_nan_mut_full_spec isNan l
  rw [remove_nan_mut_checked]
  by_cases h0 : l.length = 0
  · rw [if_pos h0, remove_nan_mut, remove_nan_mut_full, if_pos h0]
  · have hfull : remove_nan_mut_full isNan l = partitionLoop isNan l 0 (l.length - 1) := by
      rw [remove_nan_mut_full, if_neg h0]
    rw [if_neg h0, partitionLoopC_eq isNan l 0 (l.length - 1) (by omega)]
    rcases hp : partitionLoop isNan l 0 (l.length - 1) with ⟨l2, i2⟩
    simp only []
    have h1 : i2 ≤ l2.length := by
      have h2 := hs.2.1
      have h3 := hs.2.2.1
      rw [hfull, hp] at h2 h3
      simp only [] at h2 h3
      omega
    rw [if_pos h1, remove_nan_mut, hfull, hp]

theorem fold_skipnan_eq_foldl_filterMap {α β B : Type} (tryAsNotNan : α → Option β)
    (l : List α) (init : B) (f : B → β → B) :
    fold_skipnan tryAsNotNan l init f = (l.filterMap tryAsNotNan).foldl f init := by
  induction l generalizing init with
  | nil => rfl
  | cons a t ih =>
    simp only [fold_skipnan] at ih ⊢
    cases h : tryAsNotNan a with
    | none => simp [List.filterMap_cons, h, ih]
    | some b => simp [List.filterMap_cons, h, ih]

/-- Scenario A of the spec, on the optional-discrete family: an input with
three absent and two present values partitions to the two present values. -/
theorem scenarioA_check :
    remove_nan_mut optIsNan [none, some 1, none, some 2, none] = [some 2, some 1] := by
  simp [remove_nan_mut, remove_nan_mut_full, partitionLoop, advanceI, retreatJ, swapNth, lget,
    optIsNan]

/-- Scenario B of the spec: empty input partitions to the empty view. -/
theorem scenarioB_check : remove_nan_mut optIsNan ([] : List (Option Nat)) = [] := by
  simp [remove_nan_mut, remove_nan_mut_full]

/-- Scenario C of the spec: an input with no absent values is returned
unchanged, in original order. -/
theorem scenarioC_check :
    remove_nan_mut optIsNan [some 1, some 2, some 3] = [some 1, some 2, some 3] := by
  simp [remove_nan_mut, remove_nan_mut_full, partitionLoop, advanceI, retreatJ, swapNth, lget,
    optIsNan]

/-- Scenario D of the spec: an all-absent input partitions to the empty view. -/
theorem scenarioD_check :
    remove_nan_mut optIsNan ([none, none, none] : List (Option Nat)) = [] := by
  simp [remove_nan_mut, remove_nan_mut_full, partitionLoop, advanceI, retreatJ, swapNth, lget,
    optIsNan]

/-- Claim C1: for every finite one-dimensional view `S` of maybe-NaN values,
the sub-view returned by `remove_nan_mut` contains exactly the elements of `S`
for which `is_nan` was false — as a multiset, with no element lost or
duplicated — and therefore its length equals the count of elements of `S` for
which `is_nan` is false. -/
theorem claim_C1_remove_nan_mut_exact_multiset {α : Type} [Inhabited α]
    (isNan : α → Bool) (l : List α) :
    (remove_nan_mut isNan l).Perm (l.filter (fun x => !isNan x)) ∧
    (remove_nan_mut isNan l).length = l.countP (fun x => !isNan x) :=
  ⟨remove_nan_mut_perm_filter isNan l, remove_nan_mut_length isNan l⟩

/-- Claim C2: every element of the sub-view returned by `remove_nan_mut`
satisfies `is_nan = false`; in particular an all-NaN input and an empty input
both yield a returned sub-view of length 0. -/
theorem claim_C2_remove_nan_mut_output_non_nan {α : Type} [Inhabited α]
    (isNan : α → Bool) (l : List α) :
    (∀ x ∈ remove_nan_mut isNan l, isNan x = false) ∧
    ((∀ x ∈ l, isNan x = true) → remove_nan_mut isNan l = []) ∧
    (l = [] → remove_nan_mut isNan l = []) := by
  refine ⟨remove_nan_mut_all_nonNan isNan l, ?_, ?_⟩
  · intro h
    have hperm := remove_nan_mut_perm_filter isNan l
    have hnil : l.filter (fun x => !isNan x) = [] := by
      apply List.filter_eq_nil_iff.mpr
      intro a ha
      simp [h a ha]
    rw [hnil] at hperm
    exact hperm.eq_nil
  · intro h
    subst h
    rfl

theorem claim_C2_witness :
    (∀ x ∈ remove_nan_mut optIsNan [some 7, none, some 8], optIsNan x = false) ∧
    remove_nan_mut optIsNan ([none, none, none] : List (Option Nat)) = [] ∧
    remove_nan_mut optIsNan ([] : List (Option Nat)) = [] :=
  ⟨(claim_C2_remove_nan_mut_output_non_nan optIsNan [some 7, none, some 8]).1,
   (claim_C2_remove_nan_mut_output_non_nan optIsNan [none, none, none]).2.1 (by decide),
   (claim_C2_remove_nan_mut_output_non_nan optIsNan ([] : List (Option Nat))).2.2 rfl⟩

/-- Claim C3: `remove_nan_mut` is idempotent — partitioning the (owned copy of
the) returned sub-view again yields element-for-element the same sequence. -/
theorem claim_C3_remove_nan_mut_idempotent {α : Type} [Inhabited α]
    (isNan : α → Bool) (l : List α) :
    remove_nan_mut isNan (remove_nan_mut isNan l) = remove_nan_mut isNan l :=
  remove_nan_mut_idem isNan l

/-- Claim C4: on an input view with no NaN/absent element, `remove_nan_mut`
returns the full view with every element unchanged in its original position
(the backing view is exactly the input and the retained region is all of it). -/
theorem claim_C4_remove_nan_mut_all_non_nan_untouched {α : Type} [Inhabited α]
    (isNan : α → Bool) (l : List α) (h : ∀ x ∈ l, isNan x = false) :
    remove_nan_mut isNan l = l ∧ remove_nan_mut_full isNan l = (l, l.length) :=
  ⟨(remove_nan_mut_nonNan_id isNan l h).2, (remove_nan_mut_nonNan_id isNan l h).1⟩

theorem claim_C4_witness :
    remove_nan_mut optIsNan [some 1, some 2, some 3] = [some 1, some 2, some 3] ∧
    remove_nan_mut_full optIsNan [some 1, some 2, some 3] = ([some 1, some 2, some 3], 3) :=
  claim_C4_remove_nan_mut_all_non_nan_untouched optIsNan [some 1, some 2, some 3] (by decide)

/-- Claim C5: for every maybe-NaN value `v`, exactly one of `is_nan v = true`
or `try_as_not_nan v = some w` holds (and then `w` carries the same value),
and for non-NaN `v`, `from_not_nan` of the `try_as_not_nan` result reproduces
`v` exactly — for both concrete families (optional-discrete and
floating-point). -/
theorem claim_C5_try_as_not_nan_exclusive_roundtrip :
    (∀ (T : Type) (v : Option T),
      (optIsNan v = true ∧ optTryAsNotNan v = none) ∨
      (optIsNan v = false ∧ ∃ w, optTryAsNotNan v = some w ∧ w.val = v)) ∧
    (∀ (T : Type) (v : Option T), optIsNan v = false →
      ∃ w, optTryAsNotNan v = some w ∧ optFromNotNan w = v) ∧
    (∀ (γ : Type) (p : γ → Bool) (v : γ),
      (p v = true ∧ fxxTryAsNotNan p v = none) ∨
      (p v = false ∧ ∃ w, fxxTryAsNotNan p v = some w ∧ w.val = v)) ∧
    (∀ (γ : Type) (p : γ → Bool) (v : γ), p v = false →
      ∃ w, fxxTryAsNotNan p v = some w ∧ fxxFromNotNan w = v) := by
  refine ⟨?_, ?_, ?_, ?_⟩
  · intro T v
    cases v with
    | none => exact Or.inl ⟨rfl, rfl⟩
    | some a => exact Or.inr ⟨rfl, ⟨some a⟩, rfl, rfl⟩
  · intro T v hv
    cases v with
    | none => simp [optIsNan] at hv
    | some a => exact ⟨⟨some a⟩, rfl, rfl⟩
  · intro γ p v
    cases hp : p v with
    | true =>
      refine Or.inl ⟨rfl, ?_⟩
      rw [fxxTryAsNotNan, dif_pos hp]
    | false =>
      refine Or.inr ⟨rfl, ⟨v, hp⟩, ?_, rfl⟩
      rw [fxxTryAsNotNan, dif_neg (by simp [hp])]
  · intro γ p v hv
    refine ⟨⟨v, hv⟩, ?_, rfl⟩
    rw [fxxTryAsNotNan, dif_neg (by simp [hv])]

theorem claim_C5_witness :
    (∃ w, optTryAsNotNan (some (5 : Nat)) = some w ∧ optFromNotNan w = some 5) ∧
    (∃ w, fxxTryAsNotNan (fun n : Nat => decide (n = 0)) 5 = some w ∧ fxxFromNotNan w = 5) :=
  ⟨claim_C5_try_as_not_nan_exclusive_roundtrip.2.1 Nat (some 5) (by decide),
   claim_C5_try_as_not_nan_exclusive_roundtrip.2.2.2 Nat (fun n : Nat => decide (n = 0)) 5
     (by decide)⟩

/-- Claim C6: for every supported concrete type, `from_not_nan_opt none`
equals the canonical NaN/absent value (the `::std::fxx::NAN` constant for the
float family, `None` for the optional-discrete family), and
`from_not_nan_ref_opt none` yields (a reference to) that same canonical
constant. -/
theorem claim_C6_from_not_nan_opt_none_canonical :
    (∀ (T : Type), optFromNotNanOpt (none : Option (NotNone T)) = none) ∧
    (∀ (T : Type), optFromNotNanRefOpt (none : Option (NotNone T)) = none) ∧
    (∀ (γ : Type) (p : γ → Bool) (nan : γ),
      fxxFromNotNanOpt nan (none : Option {x : γ // p x = false}) = nan) ∧
    (∀ (γ : Type) (p : γ → Bool) (nan : γ),
      fxxFromNotNanRefOpt nan (none : Option {x : γ // p x = false}) = nan) :=
  ⟨fun _ => rfl, fun _ => rfl, fun _ _ _ => rfl, fun _ _ _ => rfl⟩

/-- Claim C7: `fold_skipnan` folds the combining function over exactly those
elements for which `try_as_not_nan` succeeds, skipping NaN/absent elements
entirely; in particular a summing fold over `[absent, 3, absent, 5]` with
initial accumulator 0 yields 8. -/
theorem claim_C7_fold_skipnan_skips_nan :
    (∀ (α β B : Type) (tryNN : α → Option β) (l : List α) (init : B) (f : B → β → B),
      fold_skipnan tryNN l init f = (l.filterMap tryNN).foldl f init) ∧
    fold_skipnan optTryAsNotNan [none, some 3, none, some 5] (0 : Nat)
      (fun acc w => acc + w.val.getD 0) = 8 :=
  ⟨fun _ _ _ tryNN l init f => fold_skipnan_eq_foldl_filterMap tryNN l init f, by decide⟩

/-- Claim C8: the two-pointer partition terminates (it is a total function of
its finite input) and performs no out-of-bounds access: the checked variant,
in which every element read, swap and the final slice signal `none` when out
of bounds, never signals an error and agrees with `remove_nan_mut`. -/
theorem claim_C8_remove_nan_mut_in_bounds_total {α : Type} [Inhabited α]
    (isNan : α → Bool) (l : List α) :
    remove_nan_mut_checked isNan l = some (remove_nan_mut isNan l) :=
  remove_nan_mut_checked_eq isNan l

/-- Claim C9: `NotNone::unwrap` is total under the wrapper's invariant: for
every `NotNone` whose wrapped option is present, `unwrap` returns the inner
value (the undefined-behavior branch, modelled as `none`, is unreachable),
and the invariant holds for every `NotNone` produced by the public conversion
(`try_as_not_nan`) and partition (`remove_nan_mut`) paths. -/
theorem claim_C9_notnone_unwrap_total :
    (∀ (T : Type) (w : NotNone T) (t : T), w.val = some t → w.unwrap = some t) ∧
    (∀ (T : Type) (v : Option T) (w : NotNone T),
      optTryAsNotNan v = some w → w.val.isSome = true) ∧
    (∀ (T : Type) (l : List (Option T)) (w : NotNone T),
      w ∈ optRemoveNanMut l → w.val.isSome = true) := by
  refine ⟨?_, ?_, ?_⟩
  · intro T w t ht
    rw [NotNone.unwrap, ht]
  · intro T v w hw
    cases v with
    | none => simp [optTryAsNotNan] at hw
    | some a =>
      rw [optTryAsNotNan] at hw
      simp only [Option.isNone_some, Bool.false_eq_true, if_false,
        Option.some.injEq] at hw
      rw [← hw]
      rfl
  · intro T l w hw
    rw [optRemoveNanMut] at hw
    obtain ⟨v, hv, rfl⟩ := List.mem_map.mp hw
    have := remove_nan_mut_all_nonNan optIsNan l v hv
    rw [optIsNan] at this
    simp only [Option.isSome]
    cases v with
    | none => simp at this
    | some a => rfl

theorem claim_C9_witness :
    NotNone.unwrap ⟨some (3 : Nat)⟩ = some 3 ∧
    (NotNone.val (⟨some (3 : Nat)⟩ : NotNone Nat)).isSome = true ∧
    (NotNone.val (⟨some (7 : Nat)⟩ : NotNone Nat)).isSome = true :=
  ⟨claim_C9_notnone_unwrap_total.1 Nat ⟨some 3⟩ 3 rfl,
   claim_C9_notnone_unwrap_total.2.1 Nat (some 3) ⟨some 3⟩ (by decide),
   claim_C9_notnone_unwrap_total.2.2 Nat [some 7] ⟨some 7⟩ (by
     simp [optRemoveNanMut, remove_nan_mut, remove_nan_mut_full, partitionLoop, advanceI,
       retreatJ, lget, optIsNan])⟩

/-- Claim C10: `remove_nan_mut` only rearranges elements: the full backing
view after the call is a permutation of the input, its prefix is exactly the
returned sub-view, and the discarded suffix is — as a multiset — exactly the
NaN/absent elements of the input. -/
theorem claim_C10_remove_nan_mut_only_permutes {α : Type} [Inhabited α]
    (isNan : α → Bool) (l : List α) :
    (remove_nan_mut_full isNan l).1.Perm l ∧
    (remove_nan_mut_full isNan l).1.take (remove_nan_mut_full isNan l).2 =
      remove_nan_mut isNan l ∧
    ((remove_nan_mut_full isNan l).1.drop (remove_nan_mut_full isNan l).2).Perm
      (l.filter (fun x => isNan x)) :=
  ⟨(remove_nan_mut_full_spec isNan l).1, rfl, remove_nan_mut_suffix_perm_filter isNan l⟩
